import Mathlib

/-!
Verification of the fhirlighter path-expression engine (lexer, AST arena,
evaluator) against its specification.  The Rust sources are embedded
shallowly: `serde_json::Value` becomes `Json` (document numbers are modelled
as 64-bit integers, the only numbers the core ever constructs or compares),
`Cow<'_, Value>` becomes the two-variant `CowJson`, fallible functions
return `Except Error _`, and the recursive evaluator carries explicit fuel
(the Rust recursion is bounded by the expression depth; parser-produced
arenas only ever reference strictly smaller handles, so a fuel equal to the
arena size never runs out).
-/

namespace EmberPath

/-- The JSON document model (`serde_json::Value`).  Numbers are restricted to
`i64` values: the evaluator only builds numbers via `Number::from` on `i64`
or `usize` counts, and `ComparableTypes::from_value` only accepts numbers
representable as `i64`. -/
inductive Json where
  | null
  | bool (b : Bool)
  | num (n : Int)
  | str (s : String)
  | arr (elems : List Json)
  | obj (fields : List (String × Json))

/-- Map lookup (`serde_json::Map::get`): first binding with the key. -/
def lookupField : List (String × Json) → String → Option Json
  | [], _ => none
  | (k, v) :: rest, key => if k = key then some v else lookupField rest key

/-- Map removal (`serde_json::Map::remove`): returns the removed value and
the remaining bindings. -/
def mapRemove : List (String × Json) → String → Option (Json × List (String × Json))
  | [], _ => none
  | (k, v) :: rest, key =>
      if k = key then some (v, rest)
      else match mapRemove rest key with
        | some (w, rest2) => some (w, (k, v) :: rest2)
        | none => none

/-- `Value::get` with a string key: a field of an object, `None` otherwise. -/
def Json.getKey : Json → String → Option Json
  | .obj fields, key => lookupField fields key
  | _, _ => none

/-- `Value::get` with a `usize` index: an element of an array, `None` otherwise. -/
def Json.getIdx : Json → Nat → Option Json
  | .arr l, i => l.get? i
  | _, _ => none

/-- `Value::as_str`. -/
def Json.as_str : Json → Option String
  | .str s => some s
  | _ => none

/-- `evaluator::error::Error`. -/
inductive Error where
  | parse (msg : String)
  | unrecoverable (msg : String)
  | integerConversion (msg : String)
deriving DecidableEq

/-- `Cow<'a, Value>`: either a view into the caller's document or a freshly
owned value.  The payload is the same JSON value either way; which variant a
computation takes decides which code path (`get` versus destructive removal)
the Rust functions run. -/
inductive CowJson where
  | borrowed (v : Json)
  | owned (v : Json)

/-- `Cow::into_owned` / `Cow::as_ref`: the underlying value. -/
def CowJson.value : CowJson → Json
  | .borrowed v => v
  | .owned v => v

/-- `Vec::swap_remove`: reads the element at `i`, overwrites slot `i` with the
last element and drops the last slot, returning the removed element and the
(order-scrambled) remainder. -/
def vecSwapRemove (l : List Json) (i : Nat) : Json × List Json :=
  (l.getD i .null, (l.set i (l.getD (l.length - 1) .null)).dropLast)

/-- `Vec::pop`: the last element and the remainder, or `None` when empty. -/
def vecPop (l : List Json) : Option (Json × List Json) :=
  match l.getLast? with
  | some v => some (v, l.dropLast)
  | none => none

/-- `evaluator::utils::get_from_object`: borrow the field of a borrowed
object, move it out of an owned object. -/
def get_from_object (cow : CowJson) (key : String) : Except Error CowJson :=
  match cow with
  | .borrowed (.obj fields) =>
      match lookupField fields key with
      | some v => .ok (.borrowed v)
      | none => .error (.parse ("Couldn't retrieve member: " ++ key))
  | .owned (.obj fields) =>
      match mapRemove fields key with
      | some (v, _) => .ok (.owned v)
      | none => .error (.parse ("Couldn't retrieve member: " ++ key))
  | _ => .error (.parse "Expected an object")

/-- `evaluator::utils::get_from_array`: borrow the element of a borrowed
array, `swap_remove` it out of an owned array. -/
def get_from_array (cow : CowJson) (index : Nat) : Except Error CowJson :=
  match cow with
  | .borrowed (.arr l) =>
      match l.get? index with
      | some v => .ok (.borrowed v)
      | none => .error (.parse ("Couldn't retrieve index: " ++ toString index))
  | .owned (.arr l) =>
      if index < l.length then .ok (.owned (vecSwapRemove l index).1)
      else .error (.parse ("Couldn't retrieve index: " ++ toString index))
  | _ => .error (.parse "Expected an array")

/-- `array_functions::empty`. -/
def empty (cow : CowJson) : Except Error CowJson :=
  match cow with
  | .borrowed (.arr l) => .ok (.owned (.bool l.isEmpty))
  | .owned (.arr l) => .ok (.owned (.bool l.isEmpty))
  | _ => .error (.parse "Expected an array")

/-- `array_functions::last`: borrow the last element of a borrowed array,
`pop` it off an owned array. -/
def last (cow : CowJson) : Except Error CowJson :=
  match cow with
  | .borrowed (.arr l) =>
      match l.getLast? with
      | some v => .ok (.borrowed v)
      | none => .error (.parse "Couldn't last item from array")
  | .owned (.arr l) =>
      match vecPop l with
      | some (v, _) => .ok (.owned v)
      | none => .error (.parse "Couldn't last item from array")
  | _ => .error (.parse "Expected an array")

/-- `array_functions::count`. -/
def count (cow : CowJson) : Except Error CowJson :=
  match cow with
  | .borrowed (.arr l) => .ok (.owned (.num l.length))
  | .owned (.arr l) => .ok (.owned (.num l.length))
  | _ => .error (.parse "Expected an array")

/-- `array_functions::exists`. -/
def existsFn (cow : CowJson) : Except Error CowJson :=
  match cow with
  | .borrowed (.arr l) => .ok (.owned (.bool (!l.isEmpty)))
  | .owned (.arr l) => .ok (.owned (.bool (!l.isEmpty)))
  | _ => .error (.parse "Expected an array")

/-- Calendar model for the date values produced by the external `time` crate. -/
structure IsoDate where
  year : Int
  month : Nat
  day : Nat
deriving DecidableEq

/-- Calendar-plus-clock model for the date-time values of the `time` crate. -/
structure IsoDateTime where
  date : IsoDate
  hour : Nat
  minute : Nat
  second : Nat
deriving DecidableEq

def isLeapYear (y : Int) : Bool := (y % 4 = 0 && y % 100 ≠ 0) || y % 400 = 0

def daysInMonth (y : Int) (m : Nat) : Nat :=
  if m = 2 then (if isLeapYear y then 29 else 28)
  else if m = 4 || m = 6 || m = 9 || m = 11 then 30
  else 31

def decimalDigit (c : Char) : Nat := c.toNat - 48

/-- Modelled from the spec: the repository delegates ISO-8601 date parsing to
the external `time` crate (`Date::parse` with `Iso8601::DATE`, not in this
repository); modelled as the extended format `YYYY-MM-DD` with calendar
validation. -/
def parseIsoDate (s : String) : Option IsoDate :=
  match s.data with
  | [a, b, c, d, k1, e, f, k2, g, h] =>
      if a.isDigit && b.isDigit && c.isDigit && d.isDigit && k1 = '-' &&
         e.isDigit && f.isDigit && k2 = '-' && g.isDigit && h.isDigit then
        let year : Int :=
          ((decimalDigit a * 1000 + decimalDigit b * 100 +
            decimalDigit c * 10 + decimalDigit d : Nat) : Int)
        let month := decimalDigit e * 10 + decimalDigit f
        let day := decimalDigit g * 10 + decimalDigit h
        if 1 ≤ month && month ≤ 12 && 1 ≤ day && day ≤ daysInMonth year month then
          some ⟨year, month, day⟩
        else none
      else none
  | _ => none

def parseTimePart : List Char → Option (Nat × Nat × Nat)
  | [p, q, c1, r, t, c2, u, v] =>
      if p.isDigit && q.isDigit && c1 = ':' && r.isDigit && t.isDigit &&
         c2 = ':' && u.isDigit && v.isDigit then
        let hh := decimalDigit p * 10 + decimalDigit q
        let mm := decimalDigit r * 10 + decimalDigit t
        let ss := decimalDigit u * 10 + decimalDigit v
        if hh ≤ 23 && mm ≤ 59 && ss ≤ 59 then some (hh, mm, ss) else none
      else none
  | _ => none

/-- Modelled from the spec: ISO-8601 date-time parsing delegated to the
external `time` crate (`PrimitiveDateTime::parse` with `Iso8601::DEFAULT`);
modelled as `YYYY-MM-DDTHH:MM:SS`. -/
def parseIsoDateTime (s : String) : Option IsoDateTime :=
  match s.data with
  | a :: b :: c :: d :: k1 :: e :: f :: k2 :: g :: h :: tc :: rest =>
      if tc = 'T' then
        match parseIsoDate (String.mk [a, b, c, d, k1, e, f, k2, g, h]),
              parseTimePart rest with
        | some date, some (hh, mm, ss) => some ⟨date, hh, mm, ss⟩
        | _, _ => none
      else none
  | _ => none

/-- `evaluator::utils::ComparableTypes`: the tagged union a document scalar is
coerced into before a comparison.  Variant declaration order matters: the
Rust type derives `PartialOrd`, which orders values of different variants by
this declaration order. -/
inductive ComparableTypes where
  | String (s : String)
  | Integer (n : Int)
  | Boolean (b : Bool)
  | ISODateTime (dt : IsoDateTime)
  | ISODate (d : IsoDate)
deriving DecidableEq

/-- Discriminant position of a variant (its declaration order). -/
def ComparableTypes.tag : ComparableTypes → Nat
  | .String _ => 0
  | .Integer _ => 1
  | .Boolean _ => 2
  | .ISODateTime _ => 3
  | .ISODate _ => 4

/-- Chronological order on dates: the `Ord` of the `time` crate's `Date`. -/
def IsoDate.cmp (a b : IsoDate) : Ordering :=
  (compare a.year b.year).then ((compare a.month b.month).then (compare a.day b.day))

/-- Chronological order on date-times (`PrimitiveDateTime`'s `Ord`). -/
def IsoDateTime.cmp (a b : IsoDateTime) : Ordering :=
  (IsoDate.cmp a.date b.date).then
    ((compare a.hour b.hour).then ((compare a.minute b.minute).then (compare a.second b.second)))

/-- The derived `PartialOrd::partial_cmp` of `ComparableTypes`: values of the
same variant compare by their payload, values of different variants compare
by variant declaration order (all payload types here are totally ordered, so
`partial_cmp` never returns `None`). -/
def ComparableTypes.cmp (a b : ComparableTypes) : Ordering :=
  match a, b with
  | .String x, .String y => compare x y
  | .Integer x, .Integer y => compare x y
  | .Boolean x, .Boolean y => compare x y
  | .ISODateTime x, .ISODateTime y => IsoDateTime.cmp x y
  | .ISODate x, .ISODate y => IsoDate.cmp x y
  | _, _ => compare a.tag b.tag

/-- Derived `PartialEq`: structural equality (`false` across variants). -/
def ComparableTypes.eqB (a b : ComparableTypes) : Bool := a = b

def ComparableTypes.ltB (a b : ComparableTypes) : Bool :=
  match ComparableTypes.cmp a b with
  | .lt => true
  | _ => false

def ComparableTypes.leB (a b : ComparableTypes) : Bool :=
  match ComparableTypes.cmp a b with
  | .gt => false
  | _ => true

def ComparableTypes.gtB (a b : ComparableTypes) : Bool :=
  match ComparableTypes.cmp a b with
  | .gt => true
  | _ => false

def ComparableTypes.geB (a b : ComparableTypes) : Bool :=
  match ComparableTypes.cmp a b with
  | .lt => false
  | _ => true

/-- `ComparableTypes::from_value`: strings try an ISO date parse, then an ISO
date-time parse, then fall back to plain strings; numbers must be `i64`
(always true in this document model); booleans map directly; anything else
is a coercion error. -/
def ComparableTypes.from_value (value : Json) : Except Error ComparableTypes :=
  match value with
  | .str s =>
      match parseIsoDate s with
      | some d => .ok (.ISODate d)
      | none =>
          match parseIsoDateTime s with
          | some dt => .ok (.ISODateTime dt)
          | none => .ok (.String s)
  | .num n => .ok (.Integer n)
  | .bool b => .ok (.Boolean b)
  | _ => .error (.parse "Not implemented comparison for type.")

/-- Handle into the AST arena (`parser::grammar::ExprRef`, a `u16`).  The
index is modelled as a `Nat`; `ExprPool.add` only ever hands out values that
fit in 16 bits. -/
structure ExprRef where
  val : Nat
deriving DecidableEq

/-- The comparison operators of `BinaryOperation` (`= != < <= > >=`).  The
declaration of this enum is referenced by the evaluator's match arms; its
variant set is the one the engine dispatches on. -/
inductive BinaryOperator where
  | Equals
  | NotEquals
  | LessThan
  | LessThanOrEqual
  | GreaterThan
  | GreaterThanOrEqual
deriving DecidableEq

/-- `parser::grammar::Expression`.  The `Number` literal's `f64` payload is
omitted: the evaluator never inspects it (it rejects `Number` literals via
its catch-all arm), and no claim concerns it. -/
inductive Expression where
  | Identifier (name : String)
  | FunctionCall (object : Option ExprRef) (function : ExprRef) (arguments : List ExprRef)
  | MemberAccess (object : ExprRef) (member : String)
  | Index (object : ExprRef) (index : ExprRef)
  | BinaryOperation (operator : BinaryOperator) (lhs : ExprRef) (rhs : ExprRef)
  | String (s : String)
  | Number
  | Integer (i : Int)
  | Boolean (b : Bool)
  | ISODate (d : String)
  | ISODateTime (d : String)

/-- The AST arena (`parser::grammar::ExprPool`): a dense, append-only store
of expression nodes. -/
structure ExprPool where
  exprs : List Expression

def ExprPool.new : ExprPool := ⟨[]⟩

/-- `ExprPool::add`: pushes the node, then converts the new index to the
16-bit handle width; an index that does not fit yields a parse error.  The
push happens before the width check, so the state is returned alongside the
result. -/
def ExprPool.add (p : ExprPool) (e : Expression) : ExprPool × Except Error ExprRef :=
  let exprs := p.exprs ++ [e]
  let index := exprs.length - 1
  if index ≤ 65535 then (⟨exprs⟩, .ok ⟨index⟩)
  else (⟨exprs⟩, .error (.parse "Number of expressions exceeded pool size"))

/-- `ExprPool::get`.  Out-of-range access panics in Rust (a programming
error, not a recoverable condition); the model returns a default node. -/
def ExprPool.get (p : ExprPool) (r : ExprRef) : Expression :=
  p.exprs.getD r.val (.Identifier "")

/-- `parser::ast::Ast`: the arena plus the root handle. -/
structure Ast where
  expressions : ExprPool
  start : ExprRef

/-- `evaluation_utils::eval_index`: only integer literals are accepted as
indices; `usize::try_from(i64)` fails exactly on negative values. -/
def eval_index (index : Expression) (_resource : Json) : Except Error Nat :=
  match index with
  | .Integer i =>
      if 0 ≤ i then .ok i.toNat
      else .error (.integerConversion "Couldn't convert integer")
  | _ => .error (.unrecoverable "Couldn't evaluate index")

/-- The member-access loop of `Evaluator::eval` over an array: for each
element owning the member, splice in a collection value (one level of
flattening) or append the scalar; elements lacking the member are skipped. -/
def memberAccessLoop (member : String) : List Json → List Json → List Json
  | [], result => result
  | item :: rest, result =>
      match item.getKey member with
      | some (.arr a) => memberAccessLoop member rest (result ++ a)
      | some other => memberAccessLoop member rest (result ++ [other])
      | none => memberAccessLoop member rest result

/-- Per-element contribution of member access over a collection, used to
state the flattening property: the member's elements if it is a collection,
the singleton scalar if not, nothing if the element lacks the member. -/
def memberSelect (m : String) (item : Json) : List Json :=
  match item.getKey m with
  | some (.arr a) => a
  | some other => [other]
  | none => []

/-- One level of flattening over a collection, element by element. -/
def memberFlatten (m : String) : List Json → List Json
  | [] => []
  | item :: rest => memberSelect m item ++ memberFlatten m rest

/-- What a comparison of operands with different coerced tags evaluates to:
the derived `PartialOrd` orders them by variant declaration order and the
derived `PartialEq` makes them unequal (statement-side description for the
cross-tag behavior). -/
def crossTagResult (op : BinaryOperator) (ta tb : Nat) : Bool :=
  match op with
  | .Equals => false
  | .NotEquals => true
  | .LessThan => decide (ta < tb)
  | .LessThanOrEqual => decide (ta < tb)
  | .GreaterThan => decide (tb < ta)
  | .GreaterThanOrEqual => decide (tb < ta)

/-- `Evaluator::eval_function`: dispatch by exact name over the closed
builtin set. -/
def Evaluator.eval_function (resource : CowJson) (fname : String) : Except Error CowJson :=
  match fname with
  | "first" => get_from_array resource 0
  | "empty" => empty resource
  | "last" => last resource
  | "count" => count resource
  | "exists" => existsFn resource
  | other => .error (.unrecoverable ("Couldn't evaluate function: " ++ other))

/-- The operator dispatch of the `BinaryOperation` arm: each comparison
operator applied through the derived `PartialEq`/`PartialOrd`. -/
def applyBinaryOperator (op : BinaryOperator) (a b : ComparableTypes) : Bool :=
  match op with
  | .Equals => ComparableTypes.eqB a b
  | .NotEquals => !ComparableTypes.eqB a b
  | .LessThan => ComparableTypes.ltB a b
  | .LessThanOrEqual => ComparableTypes.leB a b
  | .GreaterThan => ComparableTypes.gtB a b
  | .GreaterThanOrEqual => ComparableTypes.geB a b

/-- `Evaluator::eval`: recursive node evaluation.  `fuel` is a modelling
artifact bounding the recursion depth: the Rust recursion is bounded by the
chain of handles, and parser-built arenas reference strictly smaller
handles, so `fuel = arena size` (what `Evaluator.evaluate` passes) never
runs out on them. -/
def Evaluator.eval (fuel : Nat) (ast : Ast) (r : ExprRef) (resource : Json) :
    Except Error CowJson :=
  match fuel with
  | 0 => .error (.unrecoverable "recursion fuel exhausted")
  | fuel + 1 =>
    match ast.expressions.get r with
    | .Identifier name =>
        let resourceType := (((resource.getKey "resourceType").getD .null).as_str).getD ""
        if resourceType = name then .ok (.borrowed resource)
        else
          match resource.getKey name with
          | some value => .ok (.borrowed value)
          | none => .error (.parse ("Could not find field or resource type: " ++ name))
    | .MemberAccess object member => do
        let memberObject ← Evaluator.eval fuel ast object resource
        match memberObject.value with
        | .arr array => .ok (.owned (.arr (memberAccessLoop member array [])))
        | .obj _ => get_from_object memberObject member
        | _ => .error (.parse "Unimplemented: MemberAccess")
    | .Index object index => do
        let indexObject ← Evaluator.eval fuel ast object resource
        let idx ← eval_index (ast.expressions.get index) resource
        get_from_array indexObject idx
    | .FunctionCall object fn _arguments =>
        match object with
        | some context => do
            let functionObject ← Evaluator.eval fuel ast context resource
            match ast.expressions.get fn with
            | .Identifier functionName => Evaluator.eval_function functionObject functionName
            | _ => .error (.parse "Function name must be an identifier")
        | none => .error (.parse "Standalone functions are not implemented")
    | .BinaryOperation operator lhs rhs => do
        let lhsVal ← Evaluator.eval fuel ast lhs resource
        let lhsC ← ComparableTypes.from_value lhsVal.value
        let rhsVal ← Evaluator.eval fuel ast rhs resource
        let rhsC ← ComparableTypes.from_value rhsVal.value
        .ok (.owned (.bool (applyBinaryOperator operator lhsC rhsC)))
    | .String literal => .ok (.owned (.str literal))
    | .Integer i => .ok (.owned (.num i))
    | .ISODate d => .ok (.owned (.str d))
    | .ISODateTime d => .ok (.owned (.str d))
    | .Number => .error (.parse "Expression: not implemented")
    | .Boolean _ => .error (.parse "Expression: not implemented")

/-- Fuel passed by the top-level entry point: the arena size. -/
def astFuel (ast : Ast) : Nat := ast.expressions.exprs.length

/-- `Evaluator::evaluate`: the top-level boundary.  A `Parse`-kind failure of
the internal evaluation is converted (exactly here) into an empty
collection; every other failure propagates. -/
def Evaluator.evaluate (ast : Ast) (resource : Json) : Except Error Json :=
  match Evaluator.eval (astFuel ast) ast ast.start resource with
  | .ok value => .ok value.value
  | .error (.parse _) => .ok (.arr [])
  | .error e => .error e

/-- The token kinds relevant to the lexer claims (`lexer::token::TokenKind`,
date-literal subset). -/
inductive TokenKind where
  | ISODate
  | ISODateTime
deriving DecidableEq

/-- `lexer::token::Token`: a kind plus a byte-offset span (`end` is a Lean
keyword, hence `endPos`). -/
structure Token where
  kind : TokenKind
  start : Nat
  endPos : Nat
deriving DecidableEq

/-- Rust's `char::is_whitespace`: the Unicode `White_Space` property. -/
def rustIsWhitespace (c : Char) : Bool :=
  c.toNat = 0x09 || c.toNat = 0x0A || c.toNat = 0x0B || c.toNat = 0x0C ||
  c.toNat = 0x0D || c.toNat = 0x20 || c.toNat = 0x85 || c.toNat = 0xA0 ||
  c.toNat = 0x1680 || (0x2000 ≤ c.toNat && c.toNat ≤ 0x200A) ||
  c.toNat = 0x2028 || c.toNat = 0x2029 || c.toNat = 0x202F ||
  c.toNat = 0x205F || c.toNat = 0x3000

/-- The stop set of `Lexer::parse_date`'s scan loop: whitespace, `)` or `,`
(or end of input, the empty-list case of the scan). -/
def isDateStop (c : Char) : Bool := rustIsWhitespace c || c = ')' || c = ','

/-- Total UTF-8 byte length of a character list (`position` in the lexer is
a byte offset advanced by `len_utf8`). -/
def utf8Len (cs : List Char) : Nat := (cs.map Char.utf8Size).sum

/-- The scan loop of `Lexer::parse_date`: bytes consumed before the first
stop character (or the end of input). -/
def dateScanLen : List Char → Nat
  | [] => 0
  | c :: cs => if isDateStop c then 0 else c.utf8Size + dateScanLen cs

/-- `Lexer::parse_date`: `startPos` is the byte position just after the `@`;
the scan consumes up to the next stop character and classifies by captured
byte length (`> 10` means date-time). -/
def Lexer.parse_date (startPos : Nat) (rest : List Char) : Token :=
  let len := dateScanLen rest
  if len > 10 then ⟨.ISODateTime, startPos, startPos + len⟩
  else ⟨.ISODate, startPos, startPos + len⟩

/-- The `'@'` arm of `Lexer::next_token` (line 151): `Ok(self.parse_date())`
unconditionally — `pos` is the byte position of the `@` itself and `rest`
the input following it. -/
def Lexer.lexAtSign (pos : Nat) (rest : List Char) : Except String Token :=
  .ok (Lexer.parse_date (pos + 1) rest)

/-- The lexer's identifier shape (`Lexer::parse_identifier_or_keyword`
together with its entry guard in `next_token`): a first character that is an
ASCII letter or underscore, followed by ASCII alphanumerics or underscores.
Every identifier token's text satisfies this; in particular it is never
empty. -/
def isIdentifierName (s : String) : Bool :=
  match s.data with
  | [] => false
  | c :: cs => (c.isAlpha || c = '_') && cs.all (fun d => d.isAlphanum || d = '_')

/-! ### Helper lemmas -/

lemma getD_snoc {α : Type} (l : List α) (e d : α) : (l ++ [e]).getD l.length d = e := by
  induction l with
  | nil => rfl
  | cons a t ih => rw [List.cons_append, List.length_cons, List.getD_cons_succ]; exact ih

/-- Unfolding of `ExprPool.add`: the state always gains the node; the result
depends on whether the new node's index fits the handle width. -/
lemma ExprPool.add_eq (p : ExprPool) (e : Expression) :
    p.add e = (⟨p.exprs ++ [e]⟩,
      if p.exprs.length ≤ 65535 then .ok ⟨p.exprs.length⟩
      else .error (.parse "Number of expressions exceeded pool size")) := by
  have hidx : (p.exprs ++ [e]).length - 1 = p.exprs.length := by simp
  simp only [ExprPool.add, hidx]
  split <;> rfl

/-! ### C9 and C10: the arena's `add` -/

/-- C9: `ExprPool.add` returns a handle addressing the newly stored node
whenever the node's index fits the 16-bit handle width, and a clean parse
error — never a wrapped or truncated handle — on the first addition whose
index exceeds that range. -/
theorem pool_add_capacity_behavior (p : ExprPool) (e : Expression) :
    (p.exprs.length ≤ 65535 →
      (p.add e).2 = .ok ⟨p.exprs.length⟩ ∧
      (p.add e).1.get ⟨p.exprs.length⟩ = e) ∧
    (65535 < p.exprs.length →
      (p.add e).2 = .error (.parse "Number of expressions exceeded pool size")) := by
  rw [ExprPool.add_eq]
  constructor
  · intro hle
    refine ⟨by rw [if_pos hle], ?_⟩
    exact getD_snoc p.exprs e (.Identifier "")
  · intro hgt
    rw [if_neg (by omega)]

/-- Witness for C9, exercising both sides: a pool at an index below the
width bound accepts the node, and a pool whose next index is 65536 is
rejected with the parse error. -/
theorem pool_add_capacity_behavior_witness :
    ((ExprPool.new.add (.Integer 0)).2 = .ok ⟨0⟩ ∧
      (ExprPool.new.add (.Integer 0)).1.get ⟨0⟩ = .Integer 0) ∧
    ((⟨List.replicate 65536 (.Integer 0)⟩ : ExprPool).add (.Integer 0)).2 =
      .error (.parse "Number of expressions exceeded pool size") := by
  refine ⟨?_, ?_⟩
  · exact (pool_add_capacity_behavior ExprPool.new (.Integer 0)).1 (by decide)
  · exact (pool_add_capacity_behavior ⟨List.replicate 65536 (.Integer 0)⟩ (.Integer 0)).2
      (by rw [show (ExprPool.mk (List.replicate 65536 (.Integer 0))).exprs.length = 65536 from
            List.length_replicate 65536 _]; omega)

/-- C10: when `ExprPool.add` fails with the capacity error, the rejected
node has nevertheless been appended to the store — the pool's node count
has grown by one, so `add` is not atomic on failure. -/
theorem pool_add_appends_even_on_error (p : ExprPool) (e : Expression) (err : Error)
    (_herr : (p.add e).2 = .error err) :
    (p.add e).1.exprs = p.exprs ++ [e] ∧
    (p.add e).1.exprs.length = p.exprs.length + 1 := by
  have hexprs : (p.add e).1.exprs = p.exprs ++ [e] := by
    simp only [ExprPool.add]
    split <;> rfl
  exact ⟨hexprs, by simp [hexprs]⟩

/-- Witness for C10: the failing addition to a full pool leaves the node
appended and the count incremented. -/
theorem pool_add_appends_even_on_error_witness :
    ((⟨List.replicate 65536 (.Integer 0)⟩ : ExprPool).add (.Integer 1)).1.exprs =
      List.replicate 65536 (.Integer 0) ++ [.Integer 1] ∧
    ((⟨List.replicate 65536 (.Integer 0)⟩ : ExprPool).add (.Integer 1)).1.exprs.length =
      65536 + 1 := by
  have hlen : (ExprPool.mk (List.replicate 65536 (.Integer 0))).exprs.length = 65536 :=
    List.length_replicate 65536 _
  have herr : ((⟨List.replicate 65536 (.Integer 0)⟩ : ExprPool).add (.Integer 1)).2 =
      .error (.parse "Number of expressions exceeded pool size") := by
    rw [ExprPool.add_eq, hlen]
    norm_num
  have h := pool_add_appends_even_on_error ⟨List.replicate 65536 (.Integer 0)⟩
    (.Integer 1) (.parse "Number of expressions exceeded pool size") herr
  rw [hlen] at h
  exact h

/-! ### C7: destructive extraction on owned data refines borrowed lookup -/

lemma get?_eq_some_getD {α : Type} (d : α) {l : List α} {i : Nat} (h : i < l.length) :
    l.get? i = some (l.getD i d) := by
  induction l generalizing i with
  | nil => simp at h
  | cons a t ih =>
      cases i with
      | zero => rfl
      | succ n =>
          simp only [List.get?_cons_succ, List.getD_cons_succ]
          exact ih (by simpa using h)

lemma mapRemove_fst (fields : List (String × Json)) (key : String) :
    (mapRemove fields key).map Prod.fst = lookupField fields key := by
  induction fields with
  | nil => rfl
  | cons kv rest ih =>
      obtain ⟨k, v⟩ := kv
      by_cases hk : k = key
      · simp [mapRemove, lookupField, hk]
      · simp only [mapRemove, lookupField, if_neg hk]
        cases hm : mapRemove rest key with
        | none => rw [← ih, hm]
        | some p => obtain ⟨w, r2⟩ := p; rw [← ih, hm]; rfl

/-- C7: for every JSON value, extracting an element (by index, as the last
element, or as an object member) from an owned copy — where the code uses
`swap_remove`, `pop` or map `remove` — produces the same value as the
borrowed-view lookup, and the two paths fail with exactly the same errors. -/
theorem owned_extraction_equals_borrowed_lookup (v : Json) (i : Nat) (key : String) :
    (get_from_array (.owned v) i).map CowJson.value =
      (get_from_array (.borrowed v) i).map CowJson.value ∧
    (last (.owned v)).map CowJson.value = (last (.borrowed v)).map CowJson.value ∧
    (get_from_object (.owned v) key).map CowJson.value =
      (get_from_object (.borrowed v) key).map CowJson.value := by
  refine ⟨?_, ?_, ?_⟩
  · cases v with
    | arr l =>
        have eqo : get_from_array (.owned (.arr l)) i =
            if i < l.length then .ok (.owned (vecSwapRemove l i).1)
            else .error (.parse ("Couldn't retrieve index: " ++ toString i)) := rfl
        have eqb : get_from_array (.borrowed (.arr l)) i =
            match l.get? i with
            | some w => .ok (.borrowed w)
            | none => .error (.parse ("Couldn't retrieve index: " ++ toString i)) := rfl
        by_cases h : i < l.length
        · have hb : l.get? i = some (l.getD i .null) := get?_eq_some_getD _ h
          rw [eqo, eqb, if_pos h, hb]; rfl
        · have hb : l.get? i = none := List.get?_eq_none.2 (by omega)
          rw [eqo, eqb, if_neg h, hb]
    | null => rfl
    | bool b => rfl
    | num n => rfl
    | str s => rfl
    | obj fields => rfl
  · cases v with
    | arr l =>
        cases hl : l.getLast? with
        | none => simp [last, vecPop, hl]
        | some w => simp [last, vecPop, hl, Except.map, CowJson.value]
    | null => rfl
    | bool b => rfl
    | num n => rfl
    | str s => rfl
    | obj fields => rfl
  · cases v with
    | obj fields =>
        have hfst := mapRemove_fst fields key
        cases hm : mapRemove fields key with
        | none =>
            have hlf : lookupField fields key = none := by rw [← hfst, hm]; rfl
            simp [get_from_object, hm, hlf]
        | some p =>
            obtain ⟨w, rest⟩ := p
            have hlf : lookupField fields key = some w := by rw [← hfst, hm]; rfl
            simp [get_from_object, hm, hlf, Except.map, CowJson.value]
    | null => rfl
    | bool b => rfl
    | num n => rfl
    | str s => rfl
    | arr l => rfl

/-! ### C8: the `@` date/date-time scan -/

lemma dateScanLen_eq_takeWhile (cs : List Char) :
    dateScanLen cs = utf8Len (cs.takeWhile (fun c => !isDateStop c)) := by
  induction cs with
  | nil => rfl
  | cons c rest ih =>
      by_cases h : isDateStop c
      · simp [dateScanLen, List.takeWhile, h, utf8Len]
      · simp [dateScanLen, List.takeWhile, h, utf8Len, ih]

/-- C8: on meeting `@` the lexer consumes the characters up to (excluding)
the next whitespace, `)` or `,` (or end of input), never fails, and
classifies the token as a date-time exactly when the captured span is
strictly longer than 10 bytes, as a plain date otherwise. -/
theorem at_sign_scan_classifies_by_span_length (pos : Nat) (cs : List Char) :
    Lexer.lexAtSign pos cs = .ok (Lexer.parse_date (pos + 1) cs) ∧
    (Lexer.parse_date (pos + 1) cs).endPos - (Lexer.parse_date (pos + 1) cs).start =
      utf8Len (cs.takeWhile (fun c => !isDateStop c)) ∧
    ((Lexer.parse_date (pos + 1) cs).kind = .ISODateTime ↔
      10 < utf8Len (cs.takeWhile (fun c => !isDateStop c))) ∧
    ((Lexer.parse_date (pos + 1) cs).kind = .ISODate ↔
      utf8Len (cs.takeWhile (fun c => !isDateStop c)) ≤ 10) := by
  have hlen := dateScanLen_eq_takeWhile cs
  have hpd : Lexer.parse_date (pos + 1) cs =
      if dateScanLen cs > 10 then ⟨.ISODateTime, pos + 1, pos + 1 + dateScanLen cs⟩
      else ⟨.ISODate, pos + 1, pos + 1 + dateScanLen cs⟩ := rfl
  refine ⟨rfl, ?_⟩
  by_cases h : dateScanLen cs > 10
  · rw [hpd, if_pos h]
    refine ⟨?_, ?_, ?_⟩
    · show pos + 1 + dateScanLen cs - (pos + 1) = _
      omega
    · show TokenKind.ISODateTime = TokenKind.ISODateTime ↔ _
      rw [← hlen]
      exact ⟨fun _ => h, fun _ => rfl⟩
    · show TokenKind.ISODateTime = TokenKind.ISODate ↔ _
      rw [← hlen]
      exact ⟨fun hk => absurd hk (by simp), fun hk => absurd hk (by omega)⟩
  · rw [hpd, if_neg h]
    refine ⟨?_, ?_, ?_⟩
    · show pos + 1 + dateScanLen cs - (pos + 1) = _
      omega
    · show TokenKind.ISODate = TokenKind.ISODateTime ↔ _
      rw [← hlen]
      exact ⟨fun hk => absurd hk (by simp), fun hk => absurd hk (by omega)⟩
    · show TokenKind.ISODate = TokenKind.ISODate ↔ _
      rw [← hlen]
      exact ⟨fun _ => by omega, fun _ => rfl⟩

/-! ### Unfolding lemmas for the evaluator -/

lemma astFuel_eq_succ_of_get {ast : Ast} {e : Expression}
    (h : ast.expressions.get ast.start = e) (hne : e ≠ .Identifier "") :
    ∃ n, astFuel ast = n + 1 := by
  cases hl : ast.expressions.exprs with
  | nil =>
      exfalso
      apply hne
      rw [← h]
      show ast.expressions.exprs.getD ast.start.val (.Identifier "") = _
      rw [hl]
      rfl
  | cons a t => exact ⟨t.length, by simp [astFuel, hl]⟩

lemma evaluate_of_ok {ast : Ast} {resource : Json} {cow : CowJson}
    (h : Evaluator.eval (astFuel ast) ast ast.start resource = .ok cow) :
    Evaluator.evaluate ast resource = .ok cow.value := by
  unfold Evaluator.evaluate
  rw [h]

lemma evaluate_of_parse {ast : Ast} {resource : Json} {msg : String}
    (h : Evaluator.eval (astFuel ast) ast ast.start resource = .error (.parse msg)) :
    Evaluator.evaluate ast resource = .ok (.arr []) := by
  unfold Evaluator.evaluate
  rw [h]

lemma exceptBind_ok {α β : Type} (a : α) (f : α → Except Error β) :
    (Except.ok a : Except Error α) >>= f = f a := rfl

lemma eval_identifier_eq {ast : Ast} {r : ExprRef} {name : String} (n : Nat) (resource : Json)
    (h : ast.expressions.get r = .Identifier name) :
    Evaluator.eval (n + 1) ast r resource =
      (if (((resource.getKey "resourceType").getD .null).as_str).getD "" = name then
        .ok (.borrowed resource)
      else
        match resource.getKey name with
        | some value => .ok (.borrowed value)
        | none => .error (.parse ("Could not find field or resource type: " ++ name))) := by
  unfold Evaluator.eval
  rw [h]

lemma eval_memberAccess_ok {n : Nat} {ast : Ast} {r : ExprRef} {resource : Json}
    {o : ExprRef} {m : String} {cow : CowJson}
    (h : ast.expressions.get r = .MemberAccess o m)
    (hobj : Evaluator.eval n ast o resource = .ok cow) :
    Evaluator.eval (n + 1) ast r resource =
      match cow.value with
      | .arr array => .ok (.owned (.arr (memberAccessLoop m array [])))
      | .obj _ => get_from_object cow m
      | _ => .error (.parse "Unimplemented: MemberAccess") := by
  unfold Evaluator.eval
  rw [h]
  dsimp only
  rw [hobj]
  simp only [exceptBind_ok]

lemma eval_index_literal {n : Nat} {ast : Ast} {r : ExprRef} {resource : Json}
    {o iRef : ExprRef} {k : Int} {cow : CowJson}
    (h : ast.expressions.get r = .Index o iRef)
    (hidx : ast.expressions.get iRef = .Integer k)
    (hk : 0 ≤ k)
    (hobj : Evaluator.eval n ast o resource = .ok cow) :
    Evaluator.eval (n + 1) ast r resource = get_from_array cow k.toNat := by
  unfold Evaluator.eval
  rw [h]
  dsimp only
  rw [hobj]
  simp only [exceptBind_ok]
  rw [hidx]
  have hev : eval_index (.Integer k) resource = .ok k.toNat := by
    unfold eval_index
    dsimp only
    rw [if_pos hk]
  rw [hev]
  simp only [exceptBind_ok]

lemma eval_functionCall_some {n : Nat} {ast : Ast} {r : ExprRef} {resource : Json}
    {o fnRef : ExprRef} {args : List ExprRef} {fname : String} {cow : CowJson}
    (h : ast.expressions.get r = .FunctionCall (some o) fnRef args)
    (hfn : ast.expressions.get fnRef = .Identifier fname)
    (hobj : Evaluator.eval n ast o resource = .ok cow) :
    Evaluator.eval (n + 1) ast r resource = Evaluator.eval_function cow fname := by
  unfold Evaluator.eval
  rw [h]
  dsimp only
  rw [hobj]
  simp only [exceptBind_ok]
  rw [hfn]

lemma eval_functionCall_none {ast : Ast} {r : ExprRef} {fnRef : ExprRef}
    {args : List ExprRef} (n : Nat) (resource : Json)
    (h : ast.expressions.get r = .FunctionCall none fnRef args) :
    Evaluator.eval (n + 1) ast r resource =
      .error (.parse "Standalone functions are not implemented") := by
  unfold Evaluator.eval
  rw [h]

lemma eval_binaryOperation_ok {n : Nat} {ast : Ast} {r : ExprRef} {resource : Json}
    {op : BinaryOperator} {lhs rhs : ExprRef} {cowl cowr : CowJson}
    {cl cr : ComparableTypes}
    (h : ast.expressions.get r = .BinaryOperation op lhs rhs)
    (hl : Evaluator.eval n ast lhs resource = .ok cowl)
    (hcl : ComparableTypes.from_value cowl.value = .ok cl)
    (hr : Evaluator.eval n ast rhs resource = .ok cowr)
    (hcr : ComparableTypes.from_value cowr.value = .ok cr) :
    Evaluator.eval (n + 1) ast r resource =
      .ok (.owned (.bool (applyBinaryOperator op cl cr))) := by
  unfold Evaluator.eval
  rw [h]
  dsimp only
  rw [hl]
  simp only [exceptBind_ok]
  rw [hcl]
  simp only [exceptBind_ok]
  rw [hr]
  simp only [exceptBind_ok]
  rw [hcr]
  simp only [exceptBind_ok]

/-! ### C1: unknown identifiers evaluate to the empty collection -/

/-- C1: for every document and every single-identifier expression whose
(lexer-shaped) name equals neither the document's `resourceType` value nor
any of its field names, the top-level `evaluate` returns an empty
collection, not an error. -/
theorem identifier_unknown_name_evaluates_empty (ast : Ast) (doc : Json) (name : String)
    (hstart : ast.expressions.get ast.start = .Identifier name)
    (hident : isIdentifierName name = true)
    (hrt : doc.getKey "resourceType" ≠ some (.str name))
    (hfield : doc.getKey name = none) :
    Evaluator.evaluate ast doc = .ok (.arr []) := by
  have hne : name ≠ "" := by
    intro he
    rw [he] at hident
    exact absurd hident (by decide)
  obtain ⟨n, hfuel⟩ := astFuel_eq_succ_of_get hstart
    (fun hc => hne (by injection hc))
  have hcond : ¬ ((((doc.getKey "resourceType").getD .null).as_str).getD "" = name) := by
    cases hg : doc.getKey "resourceType" with
    | none =>
        show ¬ (((Json.null).as_str).getD "" = name)
        intro he
        exact hne he.symm
    | some v =>
        cases v with
        | str s =>
            show ¬ (s = name)
            intro he
            exact hrt (by rw [hg, he])
        | null => exact fun he => hne he.symm
        | bool b => exact fun he => hne he.symm
        | num m => exact fun he => hne he.symm
        | arr l => exact fun he => hne he.symm
        | obj fields => exact fun he => hne he.symm
  have heval : Evaluator.eval (n + 1) ast ast.start doc =
      .error (.parse ("Could not find field or resource type: " ++ name)) := by
    rw [eval_identifier_eq n doc hstart, if_neg hcond, hfield]
  exact evaluate_of_parse (by rw [hfuel]; exact heval)

/-- Witness for C1: the identifier `unknownField` against a patient document
that has neither that type tag nor that field. -/
theorem identifier_unknown_name_evaluates_empty_witness :
    Evaluator.evaluate ⟨⟨[.Identifier "unknownField"]⟩, ⟨0⟩⟩
      (.obj [("resourceType", .str "Patient"), ("gender", .str "male")]) = .ok (.arr []) :=
  identifier_unknown_name_evaluates_empty _ _ "unknownField" rfl (by decide)
    (by simp [Json.getKey, lookupField]) rfl

/-! ### C2: member access over a collection flattens one level -/

lemma memberAccessLoop_eq (m : String) (items : List Json) (acc : List Json) :
    memberAccessLoop m items acc = acc ++ memberFlatten m items := by
  induction items generalizing acc with
  | nil => simp [memberAccessLoop, memberFlatten]
  | cons item rest ih =>
      cases hk : item.getKey m with
      | none =>
          unfold memberAccessLoop memberFlatten memberSelect
          rw [hk]
          dsimp only
          rw [ih]
          simp
      | some v =>
          cases v with
          | arr a =>
              unfold memberAccessLoop memberFlatten memberSelect
              rw [hk]
              dsimp only
              rw [ih]
              simp [List.append_assoc]
          | null =>
              unfold memberAccessLoop memberFlatten memberSelect
              rw [hk]
              dsimp only
              rw [ih]
              simp [List.append_assoc]
          | bool b =>
              unfold memberAccessLoop memberFlatten memberSelect
              rw [hk]
              dsimp only
              rw [ih]
              simp [List.append_assoc]
          | num mn =>
              unfold memberAccessLoop memberFlatten memberSelect
              rw [hk]
              dsimp only
              rw [ih]
              simp [List.append_assoc]
          | str s =>
              unfold memberAccessLoop memberFlatten memberSelect
              rw [hk]
              dsimp only
              rw [ih]
              simp [List.append_assoc]
          | obj fields =>
              unfold memberAccessLoop memberFlatten memberSelect
              rw [hk]
              dsimp only
              rw [ih]
              simp [List.append_assoc]

/-- C2: when the object of a member access evaluates to a collection, the
result is built by iterating the elements in order — splicing in a member
that is itself a collection (one level of flattening), appending a scalar
member, and skipping elements lacking the member, with no error. -/
theorem member_access_flattens_one_level (ast : Ast) (doc : Json) (o : ExprRef) (m : String)
    (n : Nat) (cow : CowJson) (items : List Json)
    (hstart : ast.expressions.get ast.start = .MemberAccess o m)
    (hfuel : astFuel ast = n + 1)
    (hobj : Evaluator.eval n ast o doc = .ok cow)
    (hval : cow.value = .arr items) :
    Evaluator.evaluate ast doc = .ok (.arr (memberFlatten m items)) := by
  have heval : Evaluator.eval (n + 1) ast ast.start doc =
      .ok (.owned (.arr (memberAccessLoop m items []))) := by
    rw [eval_memberAccess_ok hstart hobj, hval]
  have hres := evaluate_of_ok (show Evaluator.eval (astFuel ast) ast ast.start doc = _ by
    rw [hfuel]; exact heval)
  rw [hres]
  show Except.ok (Json.arr (memberAccessLoop m items [])) = _
  rw [memberAccessLoop_eq]
  rfl

/-- Witness for C2, the spec's own example: `X` evaluating to
`[{m:[1,2]}, {m:3}, {}]` makes `X.m` yield `[1,2,3]`. -/
theorem member_access_flattens_one_level_witness :
    Evaluator.evaluate ⟨⟨[.Identifier "X", .MemberAccess ⟨0⟩ "m"]⟩, ⟨1⟩⟩
      (.obj [("resourceType", .str "R"),
        ("X", .arr [.obj [("m", .arr [.num 1, .num 2])], .obj [("m", .num 3)], .obj []])]) =
      .ok (.arr [.num 1, .num 2, .num 3]) :=
  member_access_flattens_one_level ⟨⟨[.Identifier "X", .MemberAccess ⟨0⟩ "m"]⟩, ⟨1⟩⟩
    (.obj [("resourceType", .str "R"),
      ("X", .arr [.obj [("m", .arr [.num 1, .num 2])], .obj [("m", .num 3)], .obj []])])
    ⟨0⟩ "m" 1
    (.borrowed (.arr [.obj [("m", .arr [.num 1, .num 2])], .obj [("m", .num 3)], .obj []]))
    [.obj [("m", .arr [.num 1, .num 2])], .obj [("m", .num 3)], .obj []]
    rfl rfl rfl rfl

/-! ### C3: the builtin array functions -/

lemma eval_function_first_nil {cow : CowJson} (hval : cow.value = .arr []) :
    Evaluator.eval_function cow "first" =
      .error (.parse ("Couldn't retrieve index: " ++ toString 0)) := by
  cases cow with
  | borrowed v => simp only [CowJson.value] at hval; subst hval; rfl
  | owned v => simp only [CowJson.value] at hval; subst hval; rfl

lemma eval_function_first_cons {cow : CowJson} {v : Json} {t : List Json}
    (hval : cow.value = .arr (v :: t)) :
    ∃ c2, Evaluator.eval_function cow "first" = .ok c2 ∧ c2.value = v := by
  cases cow with
  | borrowed w =>
      simp only [CowJson.value] at hval; subst hval
      exact ⟨.borrowed v, rfl, rfl⟩
  | owned w =>
      simp only [CowJson.value] at hval; subst hval
      refine ⟨.owned (vecSwapRemove (v :: t) 0).1, ?_, rfl⟩
      show get_from_array (.owned (.arr (v :: t))) 0 = _
      unfold get_from_array
      dsimp only
      rw [if_pos (by simp)]

lemma eval_function_last_nil {cow : CowJson} (hval : cow.value = .arr []) :
    Evaluator.eval_function cow "last" = .error (.parse "Couldn't last item from array") := by
  cases cow with
  | borrowed v => simp only [CowJson.value] at hval; subst hval; rfl
  | owned v => simp only [CowJson.value] at hval; subst hval; rfl

lemma eval_function_last_some {cow : CowJson} {vs : List Json} {w : Json}
    (hval : cow.value = .arr vs) (hw : vs.getLast? = some w) :
    ∃ c2, Evaluator.eval_function cow "last" = .ok c2 ∧ c2.value = w := by
  cases cow with
  | borrowed v =>
      simp only [CowJson.value] at hval; subst hval
      refine ⟨.borrowed w, ?_, rfl⟩
      show EmberPath.last (.borrowed (.arr vs)) = _
      unfold EmberPath.last
      dsimp only
      rw [hw]
  | owned v =>
      simp only [CowJson.value] at hval; subst hval
      refine ⟨.owned w, ?_, rfl⟩
      show EmberPath.last (.owned (.arr vs)) = _
      unfold EmberPath.last vecPop
      dsimp only
      rw [hw]

lemma eval_function_count_eq {cow : CowJson} {vs : List Json} (hval : cow.value = .arr vs) :
    Evaluator.eval_function cow "count" = .ok (.owned (.num vs.length)) := by
  cases cow with
  | borrowed v => simp only [CowJson.value] at hval; subst hval; rfl
  | owned v => simp only [CowJson.value] at hval; subst hval; rfl

lemma eval_function_exists_eq {cow : CowJson} {vs : List Json} (hval : cow.value = .arr vs) :
    Evaluator.eval_function cow "exists" = .ok (.owned (.bool (!vs.isEmpty))) := by
  cases cow with
  | borrowed v => simp only [CowJson.value] at hval; subst hval; rfl
  | owned v => simp only [CowJson.value] at hval; subst hval; rfl

lemma eval_function_empty_eq {cow : CowJson} {vs : List Json} (hval : cow.value = .arr vs) :
    Evaluator.eval_function cow "empty" = .ok (.owned (.bool vs.isEmpty)) := by
  cases cow with
  | borrowed v => simp only [CowJson.value] at hval; subst hval; rfl
  | owned v => simp only [CowJson.value] at hval; subst hval; rfl

/-- C3: over a receiver that evaluates to a collection, `first()` yields the
first element (empty collection at the top level when there is none),
`last()` the last element (likewise empty when there is none), `count()`
the element count as an integer, `exists()` whether the collection is
non-empty, and `empty()` whether it is empty. -/
theorem array_builtins_semantics (ast : Ast) (doc : Json) (o fnRef : ExprRef)
    (args : List ExprRef) (fname : String) (n : Nat) (cow : CowJson) (vs : List Json)
    (hstart : ast.expressions.get ast.start = .FunctionCall (some o) fnRef args)
    (hfn : ast.expressions.get fnRef = .Identifier fname)
    (hfuel : astFuel ast = n + 1)
    (hobj : Evaluator.eval n ast o doc = .ok cow)
    (hval : cow.value = .arr vs) :
    (fname = "first" →
      Evaluator.evaluate ast doc = .ok ((vs.head?).getD (.arr []))) ∧
    (fname = "last" →
      Evaluator.evaluate ast doc = .ok ((vs.getLast?).getD (.arr []))) ∧
    (fname = "count" → Evaluator.evaluate ast doc = .ok (.num vs.length)) ∧
    (fname = "exists" → Evaluator.evaluate ast doc = .ok (.bool (!vs.isEmpty))) ∧
    (fname = "empty" → Evaluator.evaluate ast doc = .ok (.bool vs.isEmpty)) := by
  have hev : ∀ fn2, ast.expressions.get fnRef = .Identifier fn2 →
      Evaluator.eval (astFuel ast) ast ast.start doc = Evaluator.eval_function cow fn2 := by
    intro fn2 hfn2
    rw [hfuel]
    exact eval_functionCall_some hstart hfn2 hobj
  refine ⟨?_, ?_, ?_, ?_, ?_⟩
  · intro hf
    subst hf
    cases vs with
    | nil =>
        have hp := (hev _ hfn).trans (eval_function_first_nil hval)
        rw [evaluate_of_parse hp]
        rfl
    | cons v t =>
        obtain ⟨c2, hc2, hcv⟩ := eval_function_first_cons hval
        have hp := (hev _ hfn).trans hc2
        rw [evaluate_of_ok hp, hcv]
        rfl
  · intro hf
    subst hf
    cases hw : vs.getLast? with
    | none =>
        have hnil : vs = [] := List.getLast?_eq_none_iff.1 hw
        subst hnil
        have hp := (hev _ hfn).trans (eval_function_last_nil hval)
        rw [evaluate_of_parse hp]
        rfl
    | some w =>
        obtain ⟨c2, hc2, hcv⟩ := eval_function_last_some hval hw
        have hp := (hev _ hfn).trans hc2
        rw [evaluate_of_ok hp, hcv]
        rfl
  · intro hf
    subst hf
    have hp := (hev _ hfn).trans (eval_function_count_eq hval)
    rw [evaluate_of_ok hp]
    rfl
  · intro hf
    subst hf
    have hp := (hev _ hfn).trans (eval_function_exists_eq hval)
    rw [evaluate_of_ok hp]
    rfl
  · intro hf
    subst hf
    have hp := (hev _ hfn).trans (eval_function_empty_eq hval)
    rw [evaluate_of_ok hp]
    rfl

/-- Witness for C3: `name.count()` over a two-element collection yields the
integer 2 (instantiating the `count` conjunct; the shared hypotheses are
discharged on the same concrete input). -/
theorem array_builtins_semantics_witness :
    Evaluator.evaluate
      ⟨⟨[.Identifier "name", .Identifier "count", .FunctionCall (some ⟨0⟩) ⟨1⟩ []]⟩, ⟨2⟩⟩
      (.obj [("resourceType", .str "Patient"), ("name", .arr [.str "a", .str "b"])]) =
      .ok (.num 2) :=
  (array_builtins_semantics
    ⟨⟨[.Identifier "name", .Identifier "count", .FunctionCall (some ⟨0⟩) ⟨1⟩ []]⟩, ⟨2⟩⟩
    (.obj [("resourceType", .str "Patient"), ("name", .arr [.str "a", .str "b"])])
    ⟨0⟩ ⟨1⟩ [] "count" 2
    (.borrowed (.arr [.str "a", .str "b"])) [.str "a", .str "b"]
    rfl rfl rfl rfl rfl).2.2.1 rfl

/-! ### C4: standalone function calls -/

/-- C4 counterexample: a bare `first()` (a function call with no receiver)
makes the top-level `evaluate` return an empty collection, refuting the
claim that this failure is always propagated to the caller as a hard
error. -/
theorem standalone_call_returns_empty_not_error :
    Evaluator.evaluate ⟨⟨[.Identifier "first", .FunctionCall none ⟨0⟩ []]⟩, ⟨1⟩⟩
      (.obj [("resourceType", .str "Patient")]) = .ok (.arr []) := rfl

/-- C4 amended: a standalone call fails inside the recursive `eval` with a
`Parse`-kind error, but the top-level `evaluate` downgrades `Parse` errors,
so its caller receives an empty collection rather than an error. -/
theorem standalone_call_parse_error_downgraded (ast : Ast) (doc : Json)
    (fnRef : ExprRef) (args : List ExprRef)
    (hstart : ast.expressions.get ast.start = .FunctionCall none fnRef args) :
    Evaluator.eval (astFuel ast) ast ast.start doc =
      .error (.parse "Standalone functions are not implemented") ∧
    Evaluator.evaluate ast doc = .ok (.arr []) := by
  obtain ⟨n, hfuel⟩ := astFuel_eq_succ_of_get hstart (fun hc => Expression.noConfusion hc)
  have heval : Evaluator.eval (astFuel ast) ast ast.start doc =
      .error (.parse "Standalone functions are not implemented") := by
    rw [hfuel]
    exact eval_functionCall_none n doc hstart
  exact ⟨heval, evaluate_of_parse heval⟩

/-- Witness for the amended C4 at the concrete bare `first()`. -/
theorem standalone_call_parse_error_downgraded_witness :
    Evaluator.eval (astFuel ⟨⟨[.Identifier "first", .FunctionCall none ⟨0⟩ []]⟩, ⟨1⟩⟩)
      ⟨⟨[.Identifier "first", .FunctionCall none ⟨0⟩ []]⟩, ⟨1⟩⟩ ⟨1⟩
      (.obj [("resourceType", .str "Observation")]) =
      .error (.parse "Standalone functions are not implemented") ∧
    Evaluator.evaluate ⟨⟨[.Identifier "first", .FunctionCall none ⟨0⟩ []]⟩, ⟨1⟩⟩
      (.obj [("resourceType", .str "Observation")]) = .ok (.arr []) :=
  standalone_call_parse_error_downgraded
    ⟨⟨[.Identifier "first", .FunctionCall none ⟨0⟩ []]⟩, ⟨1⟩⟩
    (.obj [("resourceType", .str "Observation")]) ⟨0⟩ [] rfl

/-! ### C5: comparisons with mismatched coerced tags -/

/-- C5 counterexample: comparing the string literal `'a'` with the integer
literal `5` via `<` does not produce a coercion error — the top-level
`evaluate` silently answers with the boolean `true` (String precedes
Integer in the variant declaration order). -/
theorem mismatched_tags_comparison_returns_boolean :
    Evaluator.evaluate ⟨⟨[.String "a", .Integer 5, .BinaryOperation .LessThan ⟨0⟩ ⟨1⟩]⟩, ⟨2⟩⟩
      (.obj [("resourceType", .str "Patient")]) = .ok (.bool true) := rfl

lemma cmp_of_tag_ne {cl cr : ComparableTypes} (htag : cl.tag ≠ cr.tag) :
    ComparableTypes.cmp cl cr = compare cl.tag cr.tag := by
  cases cl <;> cases cr <;> first
    | rfl
    | exact absurd rfl htag

lemma applyBinaryOperator_of_tag_ne {cl cr : ComparableTypes} (htag : cl.tag ≠ cr.tag)
    (op : BinaryOperator) :
    applyBinaryOperator op cl cr = crossTagResult op cl.tag cr.tag := by
  have hne : cl ≠ cr := fun he => htag (he ▸ rfl)
  have hcmp := cmp_of_tag_ne htag
  have heq : ComparableTypes.eqB cl cr = false := decide_eq_false hne
  cases op with
  | Equals => simp [applyBinaryOperator, crossTagResult, heq]
  | NotEquals => simp [applyBinaryOperator, crossTagResult, heq]
  | LessThan =>
      simp only [applyBinaryOperator, crossTagResult, ComparableTypes.ltB, hcmp]
      rcases Nat.lt_trichotomy cl.tag cr.tag with h | h | h
      · rw [Nat.compare_eq_lt.2 h]
        simp [h]
      · exact absurd h htag
      · rw [Nat.compare_eq_gt.2 h]
        simp [Nat.lt_asymm h]
  | LessThanOrEqual =>
      simp only [applyBinaryOperator, crossTagResult, ComparableTypes.leB, hcmp]
      rcases Nat.lt_trichotomy cl.tag cr.tag with h | h | h
      · rw [Nat.compare_eq_lt.2 h]
        simp [h]
      · exact absurd h htag
      · rw [Nat.compare_eq_gt.2 h]
        simp [Nat.lt_asymm h]
  | GreaterThan =>
      simp only [applyBinaryOperator, crossTagResult, ComparableTypes.gtB, hcmp]
      rcases Nat.lt_trichotomy cl.tag cr.tag with h | h | h
      · rw [Nat.compare_eq_lt.2 h]
        simp [Nat.lt_asymm h]
      · exact absurd h htag
      · rw [Nat.compare_eq_gt.2 h]
        simp [h]
  | GreaterThanOrEqual =>
      simp only [applyBinaryOperator, crossTagResult, ComparableTypes.geB, hcmp]
      rcases Nat.lt_trichotomy cl.tag cr.tag with h | h | h
      · rw [Nat.compare_eq_lt.2 h]
        simp [Nat.lt_asymm h]
      · exact absurd h htag
      · rw [Nat.compare_eq_gt.2 h]
        simp [h]

/-- C5 amended: when the two operands of a comparison coerce to
`ComparableTypes` values with different tags, no error is raised: the
derived ordering compares the variant tags in declaration order (String <
Integer < Boolean < ISODateTime < ISODate), cross-tag equality is `false`
and inequality `true`, and the top-level `evaluate` returns that boolean. -/
theorem mismatched_tags_compare_by_variant_order (ast : Ast) (doc : Json)
    (op : BinaryOperator) (l r : ExprRef) (n : Nat) (cowl cowr : CowJson)
    (cl cr : ComparableTypes)
    (hstart : ast.expressions.get ast.start = .BinaryOperation op l r)
    (hfuel : astFuel ast = n + 1)
    (hl : Evaluator.eval n ast l doc = .ok cowl)
    (hcl : ComparableTypes.from_value cowl.value = .ok cl)
    (hr : Evaluator.eval n ast r doc = .ok cowr)
    (hcr : ComparableTypes.from_value cowr.value = .ok cr)
    (htag : cl.tag ≠ cr.tag) :
    Evaluator.evaluate ast doc = .ok (.bool (crossTagResult op cl.tag cr.tag)) := by
  have heval : Evaluator.eval (astFuel ast) ast ast.start doc =
      .ok (.owned (.bool (applyBinaryOperator op cl cr))) := by
    rw [hfuel]
    exact eval_binaryOperation_ok hstart hl hcl hr hcr
  rw [evaluate_of_ok heval, applyBinaryOperator_of_tag_ne htag]
  rfl

/-- Witness for the amended C5: `'a' = 5` evaluates to the boolean `false`
(cross-tag equality), not an error. -/
theorem mismatched_tags_compare_by_variant_order_witness :
    Evaluator.evaluate ⟨⟨[.String "a", .Integer 5, .BinaryOperation .Equals ⟨0⟩ ⟨1⟩]⟩, ⟨2⟩⟩
      (.obj []) = .ok (.bool false) :=
  mismatched_tags_compare_by_variant_order
    ⟨⟨[.String "a", .Integer 5, .BinaryOperation .Equals ⟨0⟩ ⟨1⟩]⟩, ⟨2⟩⟩
    (.obj []) .Equals ⟨0⟩ ⟨1⟩ 2
    (.owned (.str "a")) (.owned (.num 5))
    (.String "a") (.Integer 5)
    rfl rfl rfl rfl rfl rfl (by decide)

/-! ### C6: index literal out of range -/

/-- C6: an `Index` expression whose integer-literal index is at least the
length of the collection the object evaluates to makes the top-level
`evaluate` return an empty collection, never an error. -/
theorem index_literal_out_of_range_evaluates_empty (ast : Ast) (doc : Json)
    (o iRef : ExprRef) (k : Int) (n : Nat) (cow : CowJson) (vs : List Json)
    (hstart : ast.expressions.get ast.start = .Index o iRef)
    (hidx : ast.expressions.get iRef = .Integer k)
    (hfuel : astFuel ast = n + 1)
    (hobj : Evaluator.eval n ast o doc = .ok cow)
    (hval : cow.value = .arr vs)
    (hk : (vs.length : Int) ≤ k) :
    Evaluator.evaluate ast doc = .ok (.arr []) := by
  have hk0 : 0 ≤ k := le_trans (by positivity) hk
  have hlen : vs.length ≤ k.toNat := by omega
  have hga : get_from_array cow k.toNat =
      .error (.parse ("Couldn't retrieve index: " ++ toString k.toNat)) := by
    cases cow with
    | borrowed v =>
        simp only [CowJson.value] at hval; subst hval
        show (match vs.get? k.toNat with
            | some w => Except.ok (CowJson.borrowed w)
            | none =>
                Except.error (Error.parse ("Couldn't retrieve index: " ++ toString k.toNat))) = _
        rw [List.get?_eq_none.2 hlen]
    | owned v =>
        simp only [CowJson.value] at hval; subst hval
        show (if k.toNat < vs.length then Except.ok (CowJson.owned (vecSwapRemove vs k.toNat).1)
            else Except.error (Error.parse ("Couldn't retrieve index: " ++ toString k.toNat))) = _
        rw [if_neg (by omega)]
  have heval : Evaluator.eval (astFuel ast) ast ast.start doc =
      .error (.parse ("Couldn't retrieve index: " ++ toString k.toNat)) := by
    rw [hfuel, eval_index_literal hstart hidx hk0 hobj]
    exact hga
  exact evaluate_of_parse heval

/-- Witness for C6: `name[5]` on a two-element collection yields the empty
collection. -/
theorem index_literal_out_of_range_evaluates_empty_witness :
    Evaluator.evaluate ⟨⟨[.Identifier "name", .Integer 5, .Index ⟨0⟩ ⟨1⟩]⟩, ⟨2⟩⟩
      (.obj [("resourceType", .str "Patient"), ("name", .arr [.str "a", .str "b"])]) =
      .ok (.arr []) :=
  index_literal_out_of_range_evaluates_empty
    ⟨⟨[.Identifier "name", .Integer 5, .Index ⟨0⟩ ⟨1⟩]⟩, ⟨2⟩⟩
    (.obj [("resourceType", .str "Patient"), ("name", .arr [.str "a", .str "b"])])
    ⟨0⟩ ⟨1⟩ 5 2 (.borrowed (.arr [.str "a", .str "b"])) [.str "a", .str "b"]
    rfl rfl rfl rfl rfl (by decide)

end EmberPath
